import Mathlib

/-!
Verification development for the voice-driven interview client's turn-taking
engine.  JavaScript strings are modelled as lists of characters (`Str`),
JavaScript numbers as real numbers (`ℝ`) or rationals (`ℚ`) where exact
scheduling arithmetic is at stake, and the callback-driven components as
explicit state-transition functions together with the lists of callbacks they
emit.  Every definition is translated from the repository's source; platform
primitives (`JSON.parse`, the Web Audio clock, timers) appear either as
explicit parameters or as small faithful models and are documented where they
occur.
-/

namespace Aestim

/-- JavaScript strings are modelled as lists of characters. -/
abbrev Str := List Char

/-- Whitespace test standing for the regex class `\s` (the repository only ever
splits and trims ordinary ASCII whitespace). -/
def isWs (c : Char) : Bool := c.isWhitespace

/-- Negation of `isWs`, used for word splitting. -/
def notWs (c : Char) : Bool := !(isWs c)

/-- Model of `String.prototype.trim`: remove whitespace from the right end
(implemented by reversing, dropping from the left, reversing back). -/
def jsTrimR (s : Str) : Str := (s.reverse.dropWhile isWs).reverse

/-- Model of `String.prototype.trim`: whitespace removed from both ends. -/
def jsTrim (s : Str) : Str := jsTrimR (s.dropWhile isWs)

/-- Fuel-driven splitter behind `splitWs`; the fuel makes the recursion
structural so that the kernel can evaluate it. -/
def splitWsF : Nat → Str → List Str
  | 0, _ => []
  | _ + 1, [] => []
  | fuel + 1, c :: cs =>
    if isWs c then splitWsF fuel cs
    else (c :: cs.takeWhile notWs) :: splitWsF fuel (cs.dropWhile notWs)

/-- Model of `text.split(/\s+/)` on an already-trimmed text: the list of
maximal whitespace-free words. -/
def splitWs (s : Str) : List Str := splitWsF s.length s

/-- Model of `Array.prototype.join(' ')` on a list of words. -/
def joinWords : List Str → Str
  | [] => []
  | [w] => w
  | w :: ws => w ++ ' ' :: joinWords ws

/-- `cleanWord` from `intelligentStitch` (src/unnamed/part_000):
`word.replace(/[.,?]/g, '').toLowerCase()` — drop every `.`, `,` and `?`
character, then lower-case. -/
def cleanWord (w : Str) : Str :=
  (w.filter fun c => !(c = '.' || c = ',' || c = '?')).map Char.toLower

/-- The comparison made at overlap candidate `i` inside `intelligentStitch`:
the cleaned last `i` words of the base joined with spaces against the cleaned
first `i` words of the fragment joined with spaces. -/
def overlapMatch (baseWords fragmentWords : List Str) (i : Nat) : Prop :=
  joinWords ((baseWords.drop (baseWords.length - i)).map cleanWord) =
    joinWords ((fragmentWords.take i).map cleanWord)

instance (baseWords fragmentWords : List Str) (i : Nat) :
    Decidable (overlapMatch baseWords fragmentWords i) := by
  unfold overlapMatch; infer_instance

/-- The `for (let i = min; i >= 1; i--) ... break` loop of `intelligentStitch`:
scan downward from the argument and return the first matching `i`, or 0. -/
def findOverlap (baseWords fragmentWords : List Str) : Nat → Nat
  | 0 => 0
  | i + 1 =>
    if overlapMatch baseWords fragmentWords (i + 1) then i + 1
    else findOverlap baseWords fragmentWords i

/-- `intelligentStitch` from src/unnamed/part_000 (lines 212–249), translated
clause by clause: trim both inputs, return the other side when one is empty,
otherwise split into words, find the largest suffix/prefix overlap under the
cleaned comparison, and append the non-overlapping fragment words, joined with
single spaces, to the original base text, trimming the result. -/
def intelligentStitch (baseText newFragment : Str) : Str :=
  let base := jsTrim baseText
  let fragment := jsTrim newFragment
  if base = [] then fragment
  else if fragment = [] then base
  else
    let baseWords := splitWs base
    let fragmentWords := splitWs fragment
    let overlapLength :=
      findOverlap baseWords fragmentWords (min baseWords.length fragmentWords.length)
    let nonOverlappingFragment := joinWords (fragmentWords.drop overlapLength)
    jsTrim (base ++ ' ' :: nonOverlappingFragment)

/-- The overlap length exactly as the spec words it: "the largest such `i`"
in `[1, min]` whose cleaned comparison matches (0 when none matches).  Stated
with `Nat.findGreatest` and compared against the code's downward scan. -/
def specOverlap (baseWords fragmentWords : List Str) (m : Nat) : Nat :=
  Nat.findGreatest (fun i => overlapMatch baseWords fragmentWords i) m

namespace Recorder

/-- Process noise of the noise-floor Kalman filter
(`this.Q = 1e-5` in `RecorderProcessor`, src/unnamed/part_001). -/
def Q : ℚ := 1e-5

/-- Measurement noise (`this.R = 1e-1`). -/
def R : ℚ := 1e-1

/-- `this.silenceMultiplier = 2.5`. -/
def silenceMultiplier : ℚ := 2.5

/-- `this.speechMultiplier = 10`. -/
def speechMultiplier : ℚ := 10

/-- The mutable filter state of `RecorderProcessor`: the noise-floor estimate
and the estimate variance `P`.  JavaScript numbers are idealised as rationals
(the update uses only field operations). -/
structure KState where
  noiseFloor : ℚ
  P : ℚ
deriving DecidableEq

/-- Constructor state: `noiseFloor = 0.01`, `P = 1`. -/
def initState : KState := { noiseFloor := 0.01, P := 1 }

/-- One scalar Kalman update, exactly the four assignments of
`RecorderProcessor.process` (src/unnamed/part_001, lines 28–31). -/
def kalmanUpdate (s : KState) (rms : ℚ) : KState :=
  let Pp := s.P + Q
  let K := Pp / (Pp + R)
  { noiseFloor := s.noiseFloor + K * (rms - s.noiseFloor), P := (1 - K) * Pp }

/-- `silenceThreshold = noiseFloor * silenceMultiplier`, derived per block. -/
def silenceThreshold (s : KState) : ℚ := s.noiseFloor * silenceMultiplier

/-- `speechThreshold = noiseFloor * speechMultiplier`, derived per block. -/
def speechThreshold (s : KState) : ℚ := s.noiseFloor * speechMultiplier

/-- Filter state after feeding the constant measurement `r` for `n` blocks,
starting from the constructor state. -/
def iterate (r : ℚ) : ℕ → KState
  | 0 => initState
  | n + 1 => kalmanUpdate (iterate r n) r

/-- The decay ratio `R / (Q + R)`: an upper bound on `1 - K` valid whenever
`P ≥ 0`, used to show geometric convergence of the noise floor. -/
def decayBound : ℚ := R / (Q + R)

/-- One call of `RecorderProcessor.process` (src/unnamed/part_001, lines
15–34).  `input` is `inputs[0]`: `none` models a missing first input and the
outer list is its channel list, so the guard `if (!input || input.length === 0)
return` is the first two cases.  Otherwise `pcm = input[0]` and the filter is
updated with `Math.sqrt(sumSq / pcm.length)`; `msqrt` stands for the platform's
`Math.sqrt` (the development only evaluates it at `0`, where `sqrt 0 = 0`;
note that on a zero-length channel JavaScript computes `sumSq / 0 = 0/0 = NaN`
while the rational model's total division yields `0`). -/
def process (msqrt : ℚ → ℚ) (input : Option (List (List ℚ))) (s : KState) : KState :=
  match input with
  | none => s
  | some [] => s
  | some (pcm :: _) =>
    kalmanUpdate s (msqrt ((pcm.map fun x => x * x).sum / pcm.length))

end Recorder

namespace Cartesia

/-- Scheduling state of the synthesis player: `playbackTimeRef`, the playback
cursor on the output audio clock, as a rational number of seconds. -/
structure SchedState where
  playbackTime : ℚ
deriving DecidableEq

/-- `playPcmChunk` scheduling core (src/unnamed/part_010, lines 89–93): the
chunk starts at `max(now, playbackTime)` (`now` is `audioCtx.currentTime`) and
the cursor advances by the chunk's duration.  Returns the scheduled start and
the new state. -/
def playPcmChunk (now duration : ℚ) (s : SchedState) : ℚ × SchedState :=
  let nextTime := max now s.playbackTime
  (nextTime, { playbackTime := nextTime + duration })

/-- The `ws.onmessage` handler (src/unnamed/part_010, lines 184–193) decodes
each inbound `{type:"chunk"}` message and calls `playPcmChunk` immediately, so
chunks are scheduled in raw arrival order.  Each arrival is `(sentence index,
duration)`; the result pairs each arrival with its scheduled start time.
Inbound chunk messages carry no sentence index, so the handler has no way to
reorder them. -/
def runSchedule (now : ℚ) : List (ℕ × ℚ) → SchedState → List (ℕ × ℚ) × SchedState
  | [], s => ([], s)
  | (idx, d) :: rest, s =>
    let p := playPcmChunk now d s
    let t := runSchedule now rest p.2
    ((idx, p.1) :: t.1, t.2)

/-- The scheduled start recorded for sentence index `idx` in a schedule run
(the first occurrence, matching a unique chunk per sentence). -/
def startOf (idx : ℕ) (starts : List (ℕ × ℚ)) : Option ℚ :=
  (starts.find? fun e => e.1 = idx).map Prod.snd

/-- Callbacks emitted by the synthesis player. -/
inductive SpeakerCallback
  | speakingChange (isSpeaking : Bool)
  | complete
deriving DecidableEq

/-- Observable state of the `CartesiaSpeaker` component: the set of scheduled
sources (`playingSourcesRef`, by id), the `isSpeaking` flag, whether the
socket is open, and the playback cursor. -/
structure SpeakerState where
  playingSources : List ℕ
  isSpeaking : Bool
  wsOpen : Bool
  playbackTime : ℚ
deriving DecidableEq

/-- `stopPlayback` (src/unnamed/part_010, lines 38–55): stop every scheduled
source and clear the set, close the socket, fire `onSpeakingStateChange(false)`
when currently speaking, and reset the cursor.  Returns the new state and the
callbacks it fires. -/
def stopPlayback (st : SpeakerState) : SpeakerState × List SpeakerCallback :=
  ({ playingSources := [], isSpeaking := false, wsOpen := false, playbackTime := 0 },
   if st.isSpeaking then [SpeakerCallback.speakingChange false] else [])

/-- The `source.onended` handler (src/unnamed/part_010, lines 96–105): remove
the source from the set and, when the set is empty, after the trailing pause
fire `onSpeakingStateChange(false)` and `onComplete()`.  The Web Audio API
fires `ended` also for sources cancelled via `source.stop()`, so this handler
runs for sources cancelled by `stopPlayback`. -/
def sourceOnEnded (sid : ℕ) (st : SpeakerState) : SpeakerState × List SpeakerCallback :=
  let ps := st.playingSources.erase sid
  if ps = [] then
    ({ st with playingSources := ps, isSpeaking := false },
     [SpeakerCallback.speakingChange false, SpeakerCallback.complete])
  else
    ({ st with playingSources := ps }, [])

end Cartesia

namespace Orchestrator

/-- The orchestrator's conversation states. -/
inductive ConvState
  | idle
  | calibrating
  | listening
  | thinking
  | speaking
deriving DecidableEq

/-- Message roles. -/
inductive Role
  | user
  | ai
deriving DecidableEq

/-- A conversation message (timestamps are beside the point for the claims
settled here and elided). -/
structure Message where
  role : Role
  content : Str
  id : ℕ
deriving DecidableEq

/-- The state read and written by `sendMessage`
(src/src/hooks/useConversationOrchestrator.ts): the conversation state, the
message history, the `isWaitingForResponse` flag, the current
`abortControllerRef` (by request id), the set of aborted request ids, and a
fresh-id counter. -/
structure OrchState where
  state : ConvState
  messages : List Message
  isWaitingForResponse : Bool
  inFlight : Option ℕ
  aborted : List ℕ
  nextId : ℕ
deriving DecidableEq

/-- The `options` argument of `sendMessage`. -/
structure SendOptions where
  hideFromUser : Bool
  skipStateTransition : Bool
deriving DecidableEq

/-- What the synchronous prefix of `sendMessage` did. -/
inductive SendOutcome
  | rejectedWaiting
  | rejectedEmpty
  | issued (id : ℕ)
deriving DecidableEq

/-- The synchronous prefix of `sendMessage` (useConversationOrchestrator.ts,
lines 326–384), up to the point where the `fetch` is issued: reject when
already waiting for a response; reject blank content; append the user message
unless hidden; transition to THINKING unless skipped; set the waiting flag;
abort any previous abort controller; create a fresh controller and issue the
request with its signal. -/
def sendMessageStart (content : Str) (opts : SendOptions) (st : OrchState) :
    OrchState × SendOutcome :=
  if st.isWaitingForResponse then (st, SendOutcome.rejectedWaiting)
  else if jsTrim content = [] then (st, SendOutcome.rejectedEmpty)
  else
    let st1 :=
      if opts.hideFromUser then st
      else { st with
               messages := st.messages ++ [⟨Role.user, content, st.nextId⟩],
               nextId := st.nextId + 1 }
    let st2 :=
      if opts.skipStateTransition then st1 else { st1 with state := ConvState.thinking }
    let st3 := { st2 with isWaitingForResponse := true }
    let st4 :=
      match st3.inFlight with
      | some pid => { st3 with aborted := pid :: st3.aborted }
      | none => st3
    let rid := st4.nextId
    ({ st4 with inFlight := some rid, nextId := rid + 1 }, SendOutcome.issued rid)

/-- Settlement of backend request `rid` with reply text `t`: models the rest
of `sendMessage` after `await fetch`.  When the request's controller was
aborted, `fetch` rejects with `AbortError`, whose catch branch performs no
state change, and the `finally` clause clears the waiting flag; otherwise the
AI message is appended and the state moves to SPEAKING. -/
def settleResponse (rid : ℕ) (t : Str) (st : OrchState) : OrchState :=
  if rid ∈ st.aborted then { st with isWaitingForResponse := false }
  else
    { st with
        messages := st.messages ++ [⟨Role.ai, t, st.nextId⟩],
        nextId := st.nextId + 1,
        state := ConvState.speaking,
        isWaitingForResponse := false }

end Orchestrator

namespace LiveStreamer

/-- `SILENCE_IDLE_MS` of the `LiveAudioStreamer` component imported by the
application (src/src/components/LiveAudioStreamer.tsx, line 30). -/
def SILENCE_IDLE_MS : ℕ := 2000

/-- The regex class `[^a-zA-Z0-9\s.,'-?]` of `cleanTranscription` keeps
letters, digits, whitespace, `.`, `,` and the character range `'`–`?`
(codes 39–63). -/
def cleanAllowed (c : Char) : Bool :=
  c.isAlpha || c.isDigit || isWs c || (39 ≤ c.toNat && c.toNat ≤ 63)

/-- `cleanTranscription` (LiveAudioStreamer.tsx, lines 53–55): strip the
disallowed characters and trim. -/
def cleanTranscription (text : Str) : Str := jsTrim (text.filter cleanAllowed)

/-- Streamer state relevant to segmentation: the accumulated `lastTranscript`
and the pending silence timer (remaining milliseconds, `none` when unset). -/
structure StreamerState where
  lastTranscript : Str
  timer : Option ℕ
deriving DecidableEq

/-- Result of `JSON.parse(ev.data)` as consumed by the `ws.onmessage`
handler: either parsing throws, or it yields an object whose optional
`transcript` field is the given string. -/
inductive ParseOutcome
  | jsonFail
  | jsonObj (transcript : Option Str)

/-- `parsed.transcript || ev.data`: the `transcript` field when present and
truthy (a present empty string is falsy), otherwise the raw payload; on a
parse failure the raw payload. -/
def pickTranscript (raw : Str) (p : ParseOutcome) : Str :=
  match p with
  | ParseOutcome.jsonObj (some t) => if t = [] then raw else t
  | ParseOutcome.jsonObj none => raw
  | ParseOutcome.jsonFail => raw

/-- The `ws.onmessage` handler of LiveAudioStreamer.tsx (lines 159–182),
with the platform's `JSON.parse` result supplied as `p`: take
`parsed.transcript || ev.data` (the raw payload on a parse failure), store the
trimmed text and, when it is nonempty, forward it as a non-final fragment and
restart the silence timer.  Returns the new state and the fragment forwarded
to `onTranscriptUpdate`, if any. -/
def onMessage (raw : Str) (p : ParseOutcome) (st : StreamerState) :
    StreamerState × Option (Str × Bool) :=
  let last := jsTrim (pickTranscript raw p)
  if last = [] then ({ st with lastTranscript := last }, none)
  else ({ lastTranscript := last, timer := some SILENCE_IDLE_MS }, some (last, false))

/-- The silence timer firing (`startSilenceTimer`'s callback runs
`finishUtterance`, LiveAudioStreamer.tsx lines 57–78): clear the timer, emit
the cleaned accumulated text as a final utterance when nonempty, and reset the
accumulator. -/
def timerFire (st : StreamerState) : StreamerState × Option (Str × Bool) :=
  let cleaned := cleanTranscription st.lastTranscript
  ({ lastTranscript := [], timer := none },
   if cleaned = [] then none else some (cleaned, true))

namespace Variant003

/-- `SILENCE_IDLE_MS` of the divergent streamer variant
(src/unnamed/part_003, line 23). -/
def SILENCE_IDLE_MS : ℕ := 4000

end Variant003

end LiveStreamer

namespace ResponseParser

/-- The opening brace character, written numerically. -/
def lbrace : Char := Char.ofNat 123

/-- The closing brace character, written numerically. -/
def rbrace : Char := Char.ofNat 125

/-- The backtick character, written numerically. -/
def btick : Char := Char.ofNat 96

/-- The opening fence of the regex `/```json\n([\s\S]*?)\n```/`. -/
def fenceOpen : Str := btick :: btick :: btick :: ("json".data ++ ['\n'])

/-- The closing fence `\n``` ` of the same regex. -/
def fenceClose : Str := '\n' :: btick :: btick :: btick :: []

/-- First index at which `pat` occurs in the list, scanning left to right. -/
def findSub (pat : Str) : Str → Option ℕ
  | [] => if pat = [] then some 0 else none
  | c :: cs =>
    if pat.isPrefixOf (c :: cs) then some 0 else (findSub pat cs).map (· + 1)

/-- The leftmost match of `/```json\n([\s\S]*?)\n```/`: at each position, if
the opening fence matches and a closing fence follows, the lazy capture is
everything up to the first closing fence; otherwise the scan advances one
character (JavaScript regex leftmost-match semantics). -/
def blockMatch : Str → Option Str
  | [] => none
  | c :: cs =>
    if fenceOpen.isPrefixOf (c :: cs) then
      let restAfter := (c :: cs).drop fenceOpen.length
      match findSub fenceClose restAfter with
      | some k => some (restAfter.take k)
      | none => blockMatch cs
    else blockMatch cs

/-- `String.prototype.indexOf` for a single character. -/
def idxOfChar (c : Char) : Str → Option ℕ
  | [] => none
  | d :: ds => if d = c then some 0 else (idxOfChar c ds).map (· + 1)

/-- `String.prototype.lastIndexOf` for a single character. -/
def lastIdxOfChar (c : Char) (l : Str) : Option ℕ :=
  (idxOfChar c l.reverse).map fun j => l.length - 1 - j

/-- The brace fallback of the parser: `substring(firstBrace, lastBrace + 1)`
when a `{` occurs strictly before a `}`. -/
def braceSpan (raw : Str) : Option Str :=
  match idxOfChar lbrace raw, lastIdxOfChar rbrace raw with
  | some i, some j => if i < j then some ((raw.drop i).take (j + 1 - i)) else none
  | _, _ => none

/-- `jsonString` extraction of `parseAIResponse`
(useConversationOrchestrator.ts, lines 506–518): a nonempty fenced capture
wins, otherwise the brace span (a falsy empty capture falls through to the
brace span, mirroring `if (blockMatch && blockMatch[1])`). -/
def extractJsonString (raw : Str) : Option Str :=
  match blockMatch raw with
  | some s => if s = [] then braceSpan raw else some s
  | none => braceSpan raw

/-- The fields of the object produced by `JSON.parse` that `parseAIResponse`
reads.  String fields are `Option Str` (absent = `undefined`); the `problem` /
`task` payloads are kept opaque as their serialised text. -/
structure ParsedJson where
  response : Option Str
  message : Option Str
  type : Option Str
  responseType : Option Str
  problem : Option Str
  task : Option Str

/-- JavaScript `a || b` for an optional string `a` (both `undefined` and the
empty string are falsy). -/
def jsOr (a : Option Str) (b : Str) : Str :=
  match a with
  | some s => if s = [] then b else s
  | none => b

/-- JavaScript `a || b` for two optional object payloads (objects are always
truthy, `null`/`undefined` falsy). -/
def orOpt (a b : Option Str) : Option Str :=
  match a with
  | some x => some x
  | none => b

/-- The default history text used when a parsed object has neither `response`
nor `message`. -/
def interactiveDefault : Str := ("An interactive task is ready.").data

/-- The fixed speech text substituted for long normal responses. -/
def longTextSpeech : Str :=
  ("I have a detailed scenario for you. Please read the information presented on the screen.").data

/-- Result of `parseAIResponse`. -/
structure ParsedResponse where
  textForHistory : Str
  textForSpeech : Str
  responseType : Str
  problemData : Option Str

/-- `parseAIResponse` (useConversationOrchestrator.ts, lines 500–579).
`jsonParse` stands for the platform's `JSON.parse` applied after the
clean-up steps (trim, trailing-comma removal, quote replacement, brace
balancing): `none` models a parse exception.  `extractMalformed` stands for
`extractTextFromMalformedJson`.  When a JSON string is found and parses, the
history text is `response || message || default`, the response type is
`type || responseType || 'normal'` and the problem data `problem || task`;
on a parse failure the history text is the malformed-JSON extraction or the
raw message; with no JSON string the raw message is used.  A `normal`
response longer than 400 characters is converted to an interactive display
whose speech text is the fixed screen-reading prompt. -/
def parseAIResponse (jsonParse : Str → Option ParsedJson)
    (extractMalformed : Str → Option Str) (rawAiMessage : Str) : ParsedResponse :=
  let stage :=
    match extractJsonString rawAiMessage with
    | some js =>
      match jsonParse js with
      | some pj =>
        (jsOr pj.response (jsOr pj.message interactiveDefault),
         jsOr pj.type (jsOr pj.responseType ("normal").data),
         orOpt pj.problem pj.task)
      | none => (jsOr (extractMalformed rawAiMessage) rawAiMessage, ("normal").data, none)
    | none => (rawAiMessage, ("normal").data, none)
  if stage.2.1 = ("normal").data ∧ 400 < stage.1.length then
    { textForHistory := stage.1,
      textForSpeech := longTextSpeech,
      responseType := ("interactive").data,
      problemData := some stage.1 }
  else
    { textForHistory := stage.1,
      textForSpeech := stage.1,
      responseType := stage.2.1,
      problemData := stage.2.2 }

end ResponseParser

/-! ### Lemmas about the word splitter, the joiner and trimming -/

theorem splitWsF_congr :
    ∀ (f₁ : ℕ) (l : Str) (f₂ : ℕ), l.length ≤ f₁ → l.length ≤ f₂ →
      splitWsF f₁ l = splitWsF f₂ l := by
  intro f₁
  induction f₁ with
  | zero =>
    intro l f₂ h₁ _
    have : l = [] := List.eq_nil_of_length_eq_zero (Nat.le_zero.mp h₁)
    subst this
    cases f₂ <;> rfl
  | succ n ih =>
    intro l f₂ h₁ h₂
    cases l with
    | nil => cases f₂ <;> rfl
    | cons c cs =>
      cases f₂ with
      | zero => exact absurd h₂ (by simp)
      | succ m =>
        have hcsn : cs.length ≤ n := by simpa using h₁
        have hcsm : cs.length ≤ m := by simpa using h₂
        have hd : (cs.dropWhile notWs).length ≤ cs.length :=
          (List.dropWhile_sublist notWs).length_le
        show (if isWs c then splitWsF n cs
              else (c :: cs.takeWhile notWs) :: splitWsF n (cs.dropWhile notWs)) =
             (if isWs c then splitWsF m cs
              else (c :: cs.takeWhile notWs) :: splitWsF m (cs.dropWhile notWs))
        rw [ih cs m hcsn hcsm,
            ih (cs.dropWhile notWs) m (le_trans hd hcsn) (le_trans hd hcsm)]

theorem splitWsF_eq_splitWs (fuel : ℕ) (l : Str) (h : l.length ≤ fuel) :
    splitWsF fuel l = splitWs l :=
  splitWsF_congr fuel l l.length h (le_refl _)

theorem splitWs_nil : splitWs [] = [] := rfl

theorem splitWs_cons (c : Char) (cs : Str) :
    splitWs (c :: cs) =
      if isWs c then splitWs cs
      else (c :: cs.takeWhile notWs) :: splitWs (cs.dropWhile notWs) := by
  show (if isWs c then splitWsF cs.length cs
        else (c :: cs.takeWhile notWs) :: splitWsF cs.length (cs.dropWhile notWs)) = _
  rw [splitWsF_eq_splitWs cs.length cs (le_refl _),
      splitWsF_eq_splitWs cs.length (cs.dropWhile notWs)
        ((List.dropWhile_sublist notWs).length_le)]

theorem splitWsF_words :
    ∀ (fuel : ℕ) (l : Str) (w : Str), w ∈ splitWsF fuel l →
      w ≠ [] ∧ ∀ c ∈ w, isWs c = false := by
  intro fuel
  induction fuel with
  | zero => intro l w hw; simp [splitWsF] at hw
  | succ n ih =>
    intro l w hw
    cases l with
    | nil => simp [splitWsF] at hw
    | cons c cs =>
      by_cases hc : isWs c
      · exact ih cs w (by simpa [splitWsF, hc] using hw)
      · rcases (by simpa [splitWsF, hc] using hw :
            w = c :: cs.takeWhile notWs ∨ w ∈ splitWsF n (cs.dropWhile notWs)) with h | h
        · subst h
          refine ⟨by simp, ?_⟩
          intro d hd
          rcases List.mem_cons.mp hd with rfl | hd
          · exact Bool.of_not_eq_true hc
          · have := List.mem_takeWhile_imp hd
            simpa [notWs] using this
        · exact ih (cs.dropWhile notWs) w h

theorem splitWs_words (l : Str) (w : Str) (hw : w ∈ splitWs l) :
    w ≠ [] ∧ ∀ c ∈ w, isWs c = false :=
  splitWsF_words l.length l w hw

theorem joinWords_cons_cons (w v : Str) (ws : List Str) :
    joinWords (w :: v :: ws) = w ++ ' ' :: joinWords (v :: ws) := rfl

theorem joinWords_getLast? :
    ∀ ws : List Str, ws ≠ [] → (∀ w ∈ ws, w ≠ [] ∧ ∀ c ∈ w, isWs c = false) →
      ∃ c, (joinWords ws).getLast? = some c ∧ isWs c = false := by
  intro ws
  induction ws with
  | nil => intro h; exact absurd rfl h
  | cons w tail ih =>
    intro _ hall
    cases tail with
    | nil =>
      obtain ⟨hne, hws⟩ := hall w (by simp)
      obtain ⟨c, hc⟩ := List.getLast?_isSome.mpr hne |> Option.isSome_iff_exists.mp
      exact ⟨c, by simpa [joinWords] using hc, hws c (List.mem_of_mem_getLast? (by simp [hc]))⟩
    | cons v tail' =>
      obtain ⟨c, hc, hcws⟩ := ih (by simp) fun u hu => hall u (List.mem_cons_of_mem _ hu)
      refine ⟨c, ?_, hcws⟩
      rw [joinWords_cons_cons, List.getLast?_append]
      have hne : joinWords (v :: tail') ≠ [] := by
        intro h0
        rw [h0] at hc
        simp at hc
      simp [List.getLast?_cons, hc]

theorem head?_dropWhile_false (p : Char → Bool) (l : Str) (c : Char)
    (h : (l.dropWhile p).head? = some c) : p c = false := by
  have hne : l.dropWhile p ≠ [] := by
    intro h0; rw [h0] at h; simp at h
  have hph := List.head_dropWhile_not p l hne
  rw [List.head?_eq_head hne, Option.some_inj] at h
  rwa [h] at hph

theorem dropWhile_eq_self_of_head? (p : Char → Bool) (l : Str)
    (h : ∀ c, l.head? = some c → p c = false) : l.dropWhile p = l := by
  cases l with
  | nil => rfl
  | cons a t => exact List.dropWhile_cons_of_neg (by simp [h a rfl])

theorem jsTrimR_append_exists (l : Str) : ∃ t, l = jsTrimR l ++ t := by
  obtain ⟨t, ht⟩ := List.dropWhile_suffix (l := l.reverse) isWs
  refine ⟨t.reverse, ?_⟩
  have := congrArg List.reverse ht
  simpa [jsTrimR] using this.symm

theorem head?_jsTrimR (l : Str) (h : jsTrimR l ≠ []) : (jsTrimR l).head? = l.head? := by
  obtain ⟨t, ht⟩ := jsTrimR_append_exists l
  conv_rhs => rw [ht]
  rw [List.head?_append]
  cases hh : (jsTrimR l).head? with
  | none => exact absurd (List.head?_eq_none_iff.mp hh) h
  | some c => rfl

theorem getLast?_jsTrimR_false (l : Str) (c : Char)
    (h : (jsTrimR l).getLast? = some c) : isWs c = false := by
  rw [jsTrimR, List.getLast?_reverse] at h
  exact head?_dropWhile_false isWs l.reverse c h

theorem getLast?_jsTrim_false (l : Str) (c : Char)
    (h : (jsTrim l).getLast? = some c) : isWs c = false :=
  getLast?_jsTrimR_false _ c h

theorem head?_jsTrim_false (l : Str) (c : Char)
    (h : (jsTrim l).head? = some c) : isWs c = false := by
  have hne : jsTrim l ≠ [] := by
    intro h0; rw [h0] at h; simp at h
  rw [jsTrim, head?_jsTrimR _ hne] at h
  exact head?_dropWhile_false isWs l c h

theorem jsTrimR_eq_self_of_getLast? (l : Str)
    (h : ∀ c, l.getLast? = some c → isWs c = false) : jsTrimR l = l := by
  rw [jsTrimR, dropWhile_eq_self_of_head?, List.reverse_reverse]
  intro c hc
  exact h c (by rwa [List.head?_reverse] at hc)

theorem jsTrim_idem (l : Str) : jsTrim (jsTrim l) = jsTrim l := by
  rw [jsTrim, dropWhile_eq_self_of_head?, jsTrimR_eq_self_of_getLast?]
  · exact fun c hc => getLast?_jsTrim_false l c hc
  · exact fun c hc => head?_jsTrim_false l c hc

theorem jsTrim_append_space (x : Str) : jsTrim (jsTrim x ++ [' ']) = jsTrim x := by
  by_cases h : jsTrim x = []
  · rw [h]; decide
  · rw [jsTrim, dropWhile_eq_self_of_head?]
    · rw [jsTrimR, List.reverse_append]
      show ((' ' :: (jsTrim x).reverse).dropWhile isWs).reverse = _
      rw [List.dropWhile_cons_of_pos (by decide), dropWhile_eq_self_of_head?,
          List.reverse_reverse]
      intro c hc
      exact getLast?_jsTrim_false x c (by rwa [List.head?_reverse] at hc)
    · intro c hc
      rw [List.head?_append] at hc
      cases hh : (jsTrim x).head? with
      | none => exact absurd (List.head?_eq_none_iff.mp hh) h
      | some d =>
        rw [hh] at hc
        have hdc : d = c := by simpa using hc
        exact hdc ▸ head?_jsTrim_false x d hh

theorem jsTrim_append_word (x : Str) (rest : Str) (hx : jsTrim x ≠ [])
    (hrest : ∀ c, rest.getLast? = some c → isWs c = false) (hr : rest ≠ []) :
    jsTrim (jsTrim x ++ ' ' :: rest) = jsTrim x ++ ' ' :: rest := by
  rw [jsTrim, dropWhile_eq_self_of_head?, jsTrimR_eq_self_of_getLast?]
  · intro c hc
    rw [List.getLast?_append] at hc
    have hr' : (' ' :: rest).getLast? = rest.getLast? := by
      have : ' ' :: rest = [' '] ++ rest := rfl
      rw [this, List.getLast?_append]
      cases hg : rest.getLast? with
      | none => exact absurd (List.getLast?_eq_none_iff.mp hg) hr
      | some d => rfl
    rw [hr'] at hc
    cases hg : rest.getLast? with
    | none => exact absurd (List.getLast?_eq_none_iff.mp hg) hr
    | some d =>
      rw [hg] at hc
      exact Option.some_inj.mp hc ▸ hrest d hg
  · intro c hc
    rw [List.head?_append] at hc
    cases hh : (jsTrim x).head? with
    | none => exact absurd (List.head?_eq_none_iff.mp hh) hx
    | some d =>
      rw [hh] at hc
      exact Option.some_inj.mp hc ▸ head?_jsTrim_false x d hh

theorem findOverlap_eq_specOverlap (bw fw : List Str) :
    ∀ m : ℕ, findOverlap bw fw m = specOverlap bw fw m := by
  intro m
  induction m with
  | zero => rfl
  | succ i ih =>
    rw [specOverlap, Nat.findGreatest_succ]
    show (if overlapMatch bw fw (i + 1) then i + 1 else findOverlap bw fw i) = _
    rw [ih, specOverlap]

theorem stitch_of_trim_left_nil (b f : Str) (hb : jsTrim b = []) :
    intelligentStitch b f = jsTrim f := by
  rw [intelligentStitch]
  simp [hb]

theorem stitch_of_trim_right_nil (b f : Str) (hf : jsTrim f = []) :
    intelligentStitch b f = jsTrim b := by
  rw [intelligentStitch]
  by_cases hb : jsTrim b = [] <;> simp [hb, hf]

theorem stitch_of_ne (b f : Str) (hb : jsTrim b ≠ []) (hf : jsTrim f ≠ []) :
    intelligentStitch b f =
      jsTrim (jsTrim b ++ ' ' ::
        joinWords ((splitWs (jsTrim f)).drop
          (findOverlap (splitWs (jsTrim b)) (splitWs (jsTrim f))
            (min (splitWs (jsTrim b)).length (splitWs (jsTrim f)).length)))) := by
  rw [intelligentStitch]
  simp [hb, hf]

/-- Claim C1 (corrected): the claim asserts `stitch(base, "") == base` for
every string, but `intelligentStitch` trims its inputs before the empty
checks, so a base with surrounding whitespace is returned trimmed, not
verbatim: `stitch(" a", "") = "a" ≠ " a"`. -/
theorem C1_counterexample :
    intelligentStitch ((" a").data) (("").data) ≠ (" a").data := by decide

/-- Claim C1 (amended): when the trimmed base is empty the trimmed fragment
is returned, and symmetrically; otherwise the result is the trimmed base
followed by the fragment words after the overlap, where the overlap length is
the LARGEST `i` in `[1, min(len(base), len(fragment))]` whose last-`i`-words /
first-`i`-words comparison matches after dropping `.`, `,`, `?` and
lower-casing (`specOverlap` is `Nat.findGreatest` of the comparison, i.e. the
spec's "largest such i"; the code's downward scan computes exactly it); and
`stitch("the cat sat", "cat sat on the mat") = "the cat sat on the mat"`. -/
theorem C1_stitch :
    (∀ b f : Str, jsTrim b = [] → intelligentStitch b f = jsTrim f) ∧
    (∀ b f : Str, jsTrim f = [] → intelligentStitch b f = jsTrim b) ∧
    (∀ b f : Str, jsTrim b ≠ [] → jsTrim f ≠ [] →
      intelligentStitch b f =
        jsTrim (jsTrim b ++ ' ' ::
          joinWords ((splitWs (jsTrim f)).drop
            (specOverlap (splitWs (jsTrim b)) (splitWs (jsTrim f))
              (min (splitWs (jsTrim b)).length (splitWs (jsTrim f)).length))))) ∧
    intelligentStitch (("the cat sat").data) (("cat sat on the mat").data) =
      ("the cat sat on the mat").data := by
  refine ⟨stitch_of_trim_left_nil, stitch_of_trim_right_nil, ?_, by decide⟩
  intro b f hb hf
  rw [stitch_of_ne b f hb hf, findOverlap_eq_specOverlap]

/-- Witness for C1: the amended description evaluated at the concrete pair
from the claim, with both nonemptiness hypotheses discharged by computation. -/
theorem C1_witness :
    intelligentStitch (("the cat sat").data) (("cat sat on the mat").data) =
      jsTrim (jsTrim (("the cat sat").data) ++ ' ' ::
        joinWords ((splitWs (jsTrim (("cat sat on the mat").data))).drop
          (specOverlap (splitWs (jsTrim (("the cat sat").data)))
            (splitWs (jsTrim (("cat sat on the mat").data)))
            (min (splitWs (jsTrim (("the cat sat").data))).length
              (splitWs (jsTrim (("cat sat on the mat").data))).length)))) :=
  C1_stitch.2.2.1 (("the cat sat").data) (("cat sat on the mat").data)
    (by decide) (by decide)

theorem overlapMatch_refl_full (bw : List Str) : overlapMatch bw bw bw.length := by
  rw [overlapMatch, Nat.sub_self, List.drop_zero, List.take_length]

theorem findOverlap_self_full (bw : List Str) (hbw : bw ≠ []) :
    findOverlap bw bw bw.length = bw.length := by
  obtain ⟨n, hn⟩ := Nat.exists_eq_succ_of_ne_zero
    (fun h0 => hbw (List.eq_nil_of_length_eq_zero h0))
  rw [hn]
  show (if overlapMatch bw bw (n + 1) then n + 1 else findOverlap bw bw n) = n + 1
  have hm := overlapMatch_refl_full bw
  rw [hn] at hm
  rw [if_pos hm]

/-- Claim C10: stitching a fragment onto an identical base is idempotent
(`stitch(x, x) = trim(x)`), and for every base with nonempty trim the result
extends the trimmed base, so committed text is preserved verbatim. -/
theorem C10_stitch_preserves_base :
    (∀ x : Str, intelligentStitch x x = jsTrim x) ∧
    (∀ b f : Str, jsTrim b ≠ [] → ∃ t, intelligentStitch b f = jsTrim b ++ t) := by
  constructor
  · intro x
    by_cases hx : jsTrim x = []
    · rw [stitch_of_trim_left_nil x x hx, hx]
    · rw [stitch_of_ne x x hx hx, min_self]
      by_cases hbw : splitWs (jsTrim x) = []
      · rw [hbw]
        show jsTrim (jsTrim x ++ ' ' :: joinWords []) = jsTrim x
        exact jsTrim_append_space x
      · rw [findOverlap_self_full _ hbw, List.drop_length]
        exact jsTrim_append_space x
  · intro b f hb
    by_cases hf : jsTrim f = []
    · exact ⟨[], by rw [stitch_of_trim_right_nil b f hf, List.append_nil]⟩
    · rw [stitch_of_ne b f hb hf]
      set rest := joinWords ((splitWs (jsTrim f)).drop
        (findOverlap (splitWs (jsTrim b)) (splitWs (jsTrim f))
          (min (splitWs (jsTrim b)).length (splitWs (jsTrim f)).length))) with hrest
      by_cases hrnil : rest = []
      · refine ⟨[], ?_⟩
        rw [hrnil, List.append_nil]
        exact jsTrim_append_space b
      · refine ⟨' ' :: rest, ?_⟩
        have hwords : ∀ w ∈ (splitWs (jsTrim f)).drop
            (findOverlap (splitWs (jsTrim b)) (splitWs (jsTrim f))
              (min (splitWs (jsTrim b)).length (splitWs (jsTrim f)).length)),
            w ≠ [] ∧ ∀ c ∈ w, isWs c = false :=
          fun w hw => splitWs_words (jsTrim f) w (List.mem_of_mem_drop hw)
        have hdropne : (splitWs (jsTrim f)).drop
            (findOverlap (splitWs (jsTrim b)) (splitWs (jsTrim f))
              (min (splitWs (jsTrim b)).length (splitWs (jsTrim f)).length)) ≠ [] := by
          intro h0
          apply hrnil
          rw [hrest, h0]
          rfl
        obtain ⟨c, hc, hcws⟩ := joinWords_getLast? _ hdropne hwords
        exact jsTrim_append_word b rest hb
          (fun d hd => by rw [hrest] at hd; rw [hd] at hc; exact Option.some_inj.mp hc ▸ hcws)
          hrnil

/-- Witness for C10: the preserved-base property at a concrete pair, the
nonemptiness hypothesis discharged by computation. -/
theorem C10_witness :
    ∃ t, intelligentStitch (("the cat").data) (("dog ran").data) =
      jsTrim (("the cat").data) ++ t :=
  C10_stitch_preserves_base.2 (("the cat").data) (("dog ran").data) (by decide)

/-! ### Synthesis-player scheduling (C2) -/

theorem runSchedule_starts (arrivals : List (ℕ × ℚ)) :
    ∀ c : ℚ, 0 ≤ c → (∀ e ∈ arrivals, 0 ≤ e.2) →
      ∀ k : ℕ, k < arrivals.length →
        ((Cartesia.runSchedule 0 arrivals ⟨c⟩).1.map Prod.snd).getD k 0 =
          c + ((arrivals.take k).map Prod.snd).sum := by
  induction arrivals with
  | nil => intro c _ _ k hk; simp at hk
  | cons e rest ih =>
    intro c hc hpos k hk
    obtain ⟨i, d⟩ := e
    have hstep : Cartesia.runSchedule 0 ((i, d) :: rest) ⟨c⟩ =
        ((i, c) :: (Cartesia.runSchedule 0 rest ⟨c + d⟩).1,
          (Cartesia.runSchedule 0 rest ⟨c + d⟩).2) := by
      simp [Cartesia.runSchedule, Cartesia.playPcmChunk, max_eq_right hc]
    cases k with
    | zero => simp [hstep]
    | succ k =>
      have hd : (0 : ℚ) ≤ d := hpos (i, d) (by simp)
      have hcd : (0 : ℚ) ≤ c + d := add_nonneg hc hd
      have hrest : ∀ e ∈ rest, (0 : ℚ) ≤ e.2 :=
        fun e he => hpos e (List.mem_cons_of_mem _ he)
      have hk' : k < rest.length := by simpa using hk
      rw [hstep]
      simp only [List.map_cons, List.getD_cons_succ, List.take_succ_cons,
        List.sum_cons]
      rw [ih (c + d) hcd hrest k hk']
      ring

theorem runSchedule_order (arrivals : List (ℕ × ℚ)) :
    ∀ (now : ℚ) (s : Cartesia.SchedState),
      ((Cartesia.runSchedule now arrivals s).1).map Prod.fst =
        arrivals.map Prod.fst := by
  induction arrivals with
  | nil => intro now s; rfl
  | cons e rest ih =>
    intro now s
    obtain ⟨i, d⟩ := e
    simp [Cartesia.runSchedule, ih]

/-- Claim C2 (corrected — counterexample): with the chunk for sentence 2
(duration 1) arriving before the chunk for sentence 1 (duration 2), the claim
puts sentence 1's start at Σ of no durations = 0; the handler schedules in raw
arrival order, so sentence 1 actually starts at 1, after the earlier-arrived
chunk. -/
theorem C2_counterexample :
    Cartesia.startOf 1 ((Cartesia.runSchedule 0 [(2, 1), (1, 2)] ⟨0⟩).1) ≠
      some 0 := by
  have h1 : max (0 : ℚ) 0 = 0 := by norm_num
  have h2 : max (0 : ℚ) (0 + 1) = 0 + 1 := by norm_num
  simp [Cartesia.startOf, Cartesia.runSchedule, Cartesia.playPcmChunk, h1, h2,
    List.find?]

/-- Claim C2 (amended): chunks are scheduled gaplessly in ARRIVAL order — with
the clock at the cursor origin and nonnegative durations, the k-th ARRIVING
chunk starts at the cursor plus the sum of the durations of the chunks that
arrived before it — and the handler performs no reordering: the scheduled
sequence carries the sentence indices exactly in arrival order (inbound chunk
messages carry no sentence index, so the sentence-index claim holds only when
chunks arrive in sentence order). -/
theorem C2_schedule :
    (∀ (arrivals : List (ℕ × ℚ)) (c : ℚ), 0 ≤ c → (∀ e ∈ arrivals, 0 ≤ e.2) →
      ∀ k : ℕ, k < arrivals.length →
        ((Cartesia.runSchedule 0 arrivals ⟨c⟩).1.map Prod.snd).getD k 0 =
          c + ((arrivals.take k).map Prod.snd).sum) ∧
    (∀ (arrivals : List (ℕ × ℚ)) (now : ℚ) (s : Cartesia.SchedState),
      ((Cartesia.runSchedule now arrivals s).1).map Prod.fst =
        arrivals.map Prod.fst) :=
  ⟨runSchedule_starts, runSchedule_order⟩

/-- Witness for C2: the second arriving chunk of a concrete in-order run
starts exactly at the first chunk's duration. -/
theorem C2_witness :
    ((Cartesia.runSchedule 0 [(1, 2), (2, 3)] ⟨0⟩).1.map Prod.snd).getD 1 0 =
      0 + (([((1 : ℕ), (2 : ℚ)), (2, 3)].take 1).map Prod.snd).sum :=
  C2_schedule.1 [(1, 2), (2, 3)] 0 le_rfl (by decide) 1 (by decide)

/-! ### Orchestrator single flight and supersede (C3) -/

/-- Claim C3: while a dialogue request is in flight
(`isWaitingForResponse`), `sendMessage` rejects a new submission without
touching the state — no message appended, no request issued; and whenever a
submission IS issued, the previously in-flight controller is aborted before
the new request id is installed, so settling the stale request afterwards
applies nothing (no message appended, no state transition). -/
theorem C3_single_flight :
    ∀ (content : Str) (opts : Orchestrator.SendOptions) (st : Orchestrator.OrchState),
    (st.isWaitingForResponse = true →
      Orchestrator.sendMessageStart content opts st =
        (st, Orchestrator.SendOutcome.rejectedWaiting)) ∧
    (∀ (st2 : Orchestrator.OrchState) (rid : ℕ),
      Orchestrator.sendMessageStart content opts st =
        (st2, Orchestrator.SendOutcome.issued rid) →
      ∀ pid, st.inFlight = some pid →
        pid ∈ st2.aborted ∧ st2.inFlight = some rid ∧
        ∀ t, (Orchestrator.settleResponse pid t st2).messages = st2.messages ∧
             (Orchestrator.settleResponse pid t st2).state = st2.state) := by
  intro content opts st
  constructor
  · intro h
    simp [Orchestrator.sendMessageStart, h]
  · intro st2 rid h pid hpid
    by_cases hw : st.isWaitingForResponse
    · simp [Orchestrator.sendMessageStart, hw] at h
    · by_cases he : jsTrim content = []
      · simp [Orchestrator.sendMessageStart, hw, he] at h
      · by_cases hh : opts.hideFromUser <;> by_cases hs : opts.skipStateTransition <;>
          · simp only [Orchestrator.sendMessageStart, hw, he, hh, hs, hpid,
              if_false, if_true, Bool.false_eq_true, if_neg, reduceIte,
              Prod.mk.injEq, Orchestrator.SendOutcome.issued.injEq] at h
            obtain ⟨h1, h2⟩ := h
            subst h2
            subst h1
            refine ⟨by simp, by simp, ?_⟩
            intro t
            constructor <;> simp [Orchestrator.settleResponse]

/-- Witness for C3: a concrete waiting state rejects unchanged, and a concrete
issuing state records the previous request id 5 as aborted. -/
theorem C3_witness :
    (Orchestrator.sendMessageStart (("hi").data) ⟨false, false⟩
        ⟨Orchestrator.ConvState.listening, [], true, none, [], 0⟩ =
      (⟨Orchestrator.ConvState.listening, [], true, none, [], 0⟩,
        Orchestrator.SendOutcome.rejectedWaiting)) ∧
    5 ∈ ((Orchestrator.sendMessageStart (("hi").data) ⟨false, false⟩
        ⟨Orchestrator.ConvState.listening, [], false, some 5, [], 7⟩).1).aborted := by
  constructor
  · exact (C3_single_flight (("hi").data) ⟨false, false⟩ _).1 rfl
  · exact ((C3_single_flight (("hi").data) ⟨false, false⟩
      ⟨Orchestrator.ConvState.listening, [], false, some 5, [], 7⟩).2
      ((Orchestrator.sendMessageStart (("hi").data) ⟨false, false⟩
        ⟨Orchestrator.ConvState.listening, [], false, some 5, [], 7⟩).1)
      8 (by decide) 5 rfl).1

/-! ### Silence timer (C5) and inbound transcript handling (C9) -/

/-- Claim C5 (corrected — counterexample): the silence timer of the
`LiveAudioStreamer` component the application imports defaults to 2000 ms,
not 4000 ms. -/
theorem C5_counterexample : LiveStreamer.SILENCE_IDLE_MS ≠ 4000 := by decide

/-- Claim C5 (amended): the imported component's idle timer defaults to
2000 ms (the divergent src/unnamed/part_003 variant uses 4000 ms); every
forwarded fragment arrival (re)starts the timer at `SILENCE_IDLE_MS`, and the
timer firing finalizes: it emits the cleaned accumulated utterance when
nonempty and resets the accumulator and timer. -/
theorem C5_silence_timer :
    LiveStreamer.SILENCE_IDLE_MS = 2000 ∧
    LiveStreamer.Variant003.SILENCE_IDLE_MS = 4000 ∧
    (∀ (raw : Str) (p : LiveStreamer.ParseOutcome) (st : LiveStreamer.StreamerState)
        (frag : Str × Bool),
      (LiveStreamer.onMessage raw p st).2 = some frag →
        ((LiveStreamer.onMessage raw p st).1).timer =
          some LiveStreamer.SILENCE_IDLE_MS) ∧
    (∀ st : LiveStreamer.StreamerState,
      (LiveStreamer.timerFire st).1.lastTranscript = [] ∧
      (LiveStreamer.timerFire st).1.timer = none ∧
      (LiveStreamer.cleanTranscription st.lastTranscript ≠ [] →
        (LiveStreamer.timerFire st).2 =
          some (LiveStreamer.cleanTranscription st.lastTranscript, true))) := by
  refine ⟨rfl, rfl, ?_, ?_⟩
  · intro raw p st frag h
    by_cases hlast : jsTrim (LiveStreamer.pickTranscript raw p) = []
    · simp [LiveStreamer.onMessage, hlast] at h
    · simp [LiveStreamer.onMessage, hlast]
  · intro st
    refine ⟨rfl, rfl, ?_⟩
    intro hne
    rw [LiveStreamer.timerFire]
    simp [hne]

/-- Witness for C5: a concrete forwarded fragment leaves the timer at
`SILENCE_IDLE_MS`, and a concrete fire emits the cleaned transcript. -/
theorem C5_witness :
    ((LiveStreamer.onMessage (("hi").data) LiveStreamer.ParseOutcome.jsonFail
        ⟨[], none⟩).1).timer = some LiveStreamer.SILENCE_IDLE_MS ∧
    (LiveStreamer.timerFire ⟨("hi").data, some 2000⟩).2 =
      some (LiveStreamer.cleanTranscription (("hi").data), true) :=
  ⟨C5_silence_timer.2.2.1 (("hi").data) LiveStreamer.ParseOutcome.jsonFail
      ⟨[], none⟩ (jsTrim (("hi").data), false) (by decide),
   (C5_silence_timer.2.2.2 ⟨("hi").data, some 2000⟩).2.2 (by decide)⟩

/-- Claim C9 (corrected — counterexample): a whitespace-only payload whose
JSON decoding fails is NOT forwarded — the handler trims it to empty and
drops it, while the claim requires the raw payload itself to be forwarded as
a non-final fragment. -/
theorem C9_counterexample :
    (LiveStreamer.onMessage ((" ").data) LiveStreamer.ParseOutcome.jsonFail
      ⟨[], none⟩).2 = none := by decide

/-- Claim C9 (amended): a decoded object's nonempty `transcript` field is
forwarded TRIMMED as a non-final fragment when its trim is nonempty; on a
decode failure the TRIMMED raw payload is forwarded as non-final when
nonempty, and a payload trimming to empty is dropped; every forwarded
fragment is non-final. -/
theorem C9_inbound_transcripts :
    ∀ (raw : Str) (st : LiveStreamer.StreamerState),
    (∀ t : Str, t ≠ [] → jsTrim t ≠ [] →
      (LiveStreamer.onMessage raw (LiveStreamer.ParseOutcome.jsonObj (some t)) st).2 =
        some (jsTrim t, false)) ∧
    (jsTrim raw ≠ [] →
      (LiveStreamer.onMessage raw LiveStreamer.ParseOutcome.jsonFail st).2 =
        some (jsTrim raw, false)) ∧
    (jsTrim raw = [] →
      (LiveStreamer.onMessage raw LiveStreamer.ParseOutcome.jsonFail st).2 = none) ∧
    (∀ (p : LiveStreamer.ParseOutcome) (frag : Str × Bool),
      (LiveStreamer.onMessage raw p st).2 = some frag → frag.2 = false) := by
  intro raw st
  refine ⟨?_, ?_, ?_, ?_⟩
  · intro t ht htrim
    simp [LiveStreamer.onMessage, LiveStreamer.pickTranscript, ht, htrim]
  · intro h
    simp [LiveStreamer.onMessage, LiveStreamer.pickTranscript, h]
  · intro h
    simp [LiveStreamer.onMessage, LiveStreamer.pickTranscript, h]
  · intro p frag h
    by_cases hlast : jsTrim (LiveStreamer.pickTranscript raw p) = []
    · simp [LiveStreamer.onMessage, hlast] at h
    · simp [LiveStreamer.onMessage, hlast] at h
      rw [← h]

/-- Witness for C9: a concrete payload with trailing whitespace and failing
JSON decode is forwarded trimmed and non-final. -/
theorem C9_witness :
    (LiveStreamer.onMessage (("hi ").data) LiveStreamer.ParseOutcome.jsonFail
      ⟨[], none⟩).2 = some (jsTrim (("hi ").data), false) :=
  (C9_inbound_transcripts (("hi ").data) ⟨[], none⟩).2.1 (by decide)

/-! ### Speaker stop / completion callbacks (C6) -/

/-- Claim C6 (code bug): `stopPlayback` called while speaking with one source
still scheduled fires its own `onSpeakingStateChange(false)`; but the
cancelled source's `ended` event — which the Web Audio API fires also for
sources stopped via `source.stop()` — then finds the source set empty and,
after the trailing pause, fires `onSpeakingStateChange(false)` and
`onComplete()` again, contradicting the claim that no further callback fires
beyond the one triggered by `stop()` itself. -/
theorem C6_stop_then_ended_fires_complete :
    (Cartesia.stopPlayback ⟨[1], true, true, 3⟩).2 =
      [Cartesia.SpeakerCallback.speakingChange false] ∧
    (Cartesia.sourceOnEnded 1 (Cartesia.stopPlayback ⟨[1], true, true, 3⟩).1).2 =
      [Cartesia.SpeakerCallback.speakingChange false,
        Cartesia.SpeakerCallback.complete] := by decide

/-! ### Classifier guard for missing and empty blocks (C8) -/

/-- Claim C8 (code bug): the guard skips a missing input and an input with an
empty channel list, retaining the filter state and thresholds — but a present
input whose first CHANNEL is empty (a zero-sample block) passes the guard and
IS processed: with `sumSq / 0` idealised to 0 (JavaScript computes `NaN`) the
noise floor moves away from its previous value, so an empty block is not
skipped and is treated as a measurement. -/
theorem C8_empty_block_processed :
    (∀ (f : ℚ → ℚ) (s : Recorder.KState), Recorder.process f none s = s) ∧
    (∀ (f : ℚ → ℚ) (s : Recorder.KState), Recorder.process f (some []) s = s) ∧
    (∀ (f : ℚ → ℚ) (s : Recorder.KState),
      Recorder.silenceThreshold (Recorder.process f none s) =
        Recorder.silenceThreshold s ∧
      Recorder.speechThreshold (Recorder.process f none s) =
        Recorder.speechThreshold s) ∧
    (∀ f : ℚ → ℚ, f 0 = 0 →
      Recorder.process f (some [[]]) Recorder.initState ≠ Recorder.initState) := by
  refine ⟨fun _ _ => rfl, fun _ _ => rfl, fun _ _ => ⟨rfl, rfl⟩, ?_⟩
  intro f hf
  show Recorder.kalmanUpdate Recorder.initState
      (f ((([] : List ℚ).map fun x => x * x).sum / ([] : List ℚ).length)) ≠ _
  have h0 : (([] : List ℚ).map fun x => x * x).sum / (([] : List ℚ).length : ℚ) = 0 := by
    simp
  rw [h0, hf]
  intro hcontra
  have hnf := congrArg Recorder.KState.noiseFloor hcontra
  simp only [Recorder.kalmanUpdate, Recorder.initState, Recorder.Q, Recorder.R] at hnf
  norm_num at hnf

/-- Witness for C8: with `Math.sqrt` instantiated by the rational square root
(which agrees with the real square root at 0), the zero-sample block changes
the filter state. -/
theorem C8_witness :
    Recorder.process Rat.sqrt (some [[]]) Recorder.initState ≠ Recorder.initState :=
  C8_empty_block_processed.2.2.2 Rat.sqrt (by simp [Rat.sqrt_eq 0])

/-! ### Kalman-filter convergence (C4) -/

theorem kalman_P_nonneg (s : Recorder.KState) (h : 0 ≤ s.P) (r : ℚ) :
    0 ≤ (Recorder.kalmanUpdate s r).P := by
  have hQ : (0 : ℚ) < Recorder.Q := by norm_num [Recorder.Q]
  have hR : (0 : ℚ) < Recorder.R := by norm_num [Recorder.R]
  have hPp : 0 < s.P + Recorder.Q := by linarith
  have hPpR : 0 < s.P + Recorder.Q + Recorder.R := by linarith
  have hK : (s.P + Recorder.Q) / (s.P + Recorder.Q + Recorder.R) ≤ 1 := by
    rw [div_le_one hPpR]; linarith
  show 0 ≤ (1 - (s.P + Recorder.Q) / (s.P + Recorder.Q + Recorder.R)) * (s.P + Recorder.Q)
  have h1K : 0 ≤ 1 - (s.P + Recorder.Q) / (s.P + Recorder.Q + Recorder.R) := by linarith
  exact mul_nonneg h1K hPp.le

theorem iterate_P_nonneg (r : ℚ) : ∀ n : ℕ, 0 ≤ (Recorder.iterate r n).P
  | 0 => by norm_num [Recorder.iterate, Recorder.initState]
  | n + 1 => kalman_P_nonneg _ (iterate_P_nonneg r n) r

theorem kalman_err_step (s : Recorder.KState) (h : 0 ≤ s.P) (r : ℚ) :
    |(Recorder.kalmanUpdate s r).noiseFloor - r| ≤
      Recorder.decayBound * |s.noiseFloor - r| := by
  have hQ : (0 : ℚ) < Recorder.Q := by norm_num [Recorder.Q]
  have hR : (0 : ℚ) < Recorder.R := by norm_num [Recorder.R]
  have hPpR : 0 < s.P + Recorder.Q + Recorder.R := by linarith
  show |s.noiseFloor + (s.P + Recorder.Q) / (s.P + Recorder.Q + Recorder.R) *
      (r - s.noiseFloor) - r| ≤ _
  have key : s.noiseFloor + (s.P + Recorder.Q) / (s.P + Recorder.Q + Recorder.R) *
      (r - s.noiseFloor) - r =
      (Recorder.R / (s.P + Recorder.Q + Recorder.R)) * (s.noiseFloor - r) := by
    field_simp
    ring
  rw [key, abs_mul]
  have habs : |Recorder.R / (s.P + Recorder.Q + Recorder.R)| =
      Recorder.R / (s.P + Recorder.Q + Recorder.R) :=
    abs_of_nonneg (div_nonneg hR.le hPpR.le)
  rw [habs]
  apply mul_le_mul_of_nonneg_right _ (abs_nonneg _)
  rw [Recorder.decayBound]
  gcongr
  linarith

theorem iterate_err_geom (r : ℚ) :
    ∀ n : ℕ, |(Recorder.iterate r n).noiseFloor - r| ≤
      Recorder.decayBound ^ n * |(Recorder.initState).noiseFloor - r| := by
  intro n
  induction n with
  | zero => simp [Recorder.iterate]
  | succ n ih =>
    have hc0 : (0 : ℚ) ≤ Recorder.decayBound := by
      norm_num [Recorder.decayBound, Recorder.Q, Recorder.R]
    calc |(Recorder.iterate r (n + 1)).noiseFloor - r|
        ≤ Recorder.decayBound * |(Recorder.iterate r n).noiseFloor - r| :=
          kalman_err_step _ (iterate_P_nonneg r n) r
      _ ≤ Recorder.decayBound *
            (Recorder.decayBound ^ n * |(Recorder.initState).noiseFloor - r|) :=
          mul_le_mul_of_nonneg_left ih hc0
      _ = Recorder.decayBound ^ (n + 1) * |(Recorder.initState).noiseFloor - r| := by
          ring

/-- Claim C4: from the default parameters (`Q = 1e-5`, `R = 1e-1`, `P = 1`,
`noiseFloor = 0.01`), feeding the per-block Kalman update any constant RMS
value `r` drives the noise floor to `r`: for every positive tolerance there is
a block count past which the estimate stays within the tolerance of `r`.
(The error contracts by at least `R/(Q+R) < 1` per block because the estimate
variance stays nonnegative.) -/
theorem C4_noise_floor_converges :
    ∀ r ε : ℚ, 0 < ε → ∃ N : ℕ, ∀ n : ℕ, N ≤ n →
      |(Recorder.iterate r n).noiseFloor - r| < ε := by
  intro r ε hε
  have he0nn : 0 ≤ |(Recorder.initState).noiseFloor - r| := abs_nonneg _
  have hc0 : (0 : ℚ) ≤ Recorder.decayBound := by
    norm_num [Recorder.decayBound, Recorder.Q, Recorder.R]
  have hc1 : Recorder.decayBound < 1 := by
    norm_num [Recorder.decayBound, Recorder.Q, Recorder.R]
  have hεd : 0 < ε / (|(Recorder.initState).noiseFloor - r| + 1) :=
    div_pos hε (by linarith)
  obtain ⟨N, hN⟩ := exists_pow_lt_of_lt_one hεd hc1
  refine ⟨N, fun n hn => ?_⟩
  calc |(Recorder.iterate r n).noiseFloor - r|
      ≤ Recorder.decayBound ^ n * |(Recorder.initState).noiseFloor - r| :=
        iterate_err_geom r n
    _ ≤ Recorder.decayBound ^ N * |(Recorder.initState).noiseFloor - r| :=
        mul_le_mul_of_nonneg_right (pow_le_pow_of_le_one hc0 hc1.le hn) he0nn
    _ ≤ Recorder.decayBound ^ N * (|(Recorder.initState).noiseFloor - r| + 1) :=
        mul_le_mul_of_nonneg_left (by linarith) (pow_nonneg hc0 N)
    _ < (ε / (|(Recorder.initState).noiseFloor - r| + 1)) *
          (|(Recorder.initState).noiseFloor - r| + 1) :=
        mul_lt_mul_of_pos_right hN (by linarith)
    _ = ε := div_mul_cancel₀ ε (by linarith)

/-- Witness for C4: convergence instantiated at the constant RMS 0 and
tolerance 1. -/
theorem C4_witness :
    ∃ N : ℕ, ∀ n : ℕ, N ≤ n → |(Recorder.iterate 0 n).noiseFloor - 0| < 1 :=
  C4_noise_floor_converges 0 1 one_pos

/-! ### Response parsing is not a raw pass-through (C7) -/

set_option maxRecDepth 4000 in
/-- Claim C7 (corrected — counterexample): a plain-text backend reply of 401
characters containing no JSON at all has its speech text replaced by the fixed
screen-reading prompt, so the text handed to the synthesis player is NOT the
backend's text. -/
theorem C7_counterexample :
    (ResponseParser.parseAIResponse (fun _ => none) (fun _ => none)
      (List.replicate 401 'a')).textForSpeech ≠ List.replicate 401 'a' := by decide

/-- Claim C7 (amended): the core rewrites rather than passes through, per the
code's four paths.  (1) With no JSON string found, the raw text is recorded in
history; it is spoken verbatim when at most 400 characters, and a longer reply
is spoken as the fixed screen-reading prompt instead of the backend's text.
(2) When an embedded JSON object parses with a nonempty `response` field, the
history text is that extracted field — not the raw message — and the speech
text is the same extracted field unless the response type is `normal` and the
field exceeds 400 characters, in which case the fixed prompt is spoken (the
long-text substitution applies to parsed responses too).  (3) When a JSON
string is found but parsing fails and the malformed-JSON extraction yields
nothing, the raw text still passes through to history, and to the player when
at most 400 characters.  (4) When parsing fails but the extraction yields a
nonempty text, that extracted text is recorded instead of the raw message. -/
theorem C7_parse_rewrites :
    (∀ (jp : Str → Option ResponseParser.ParsedJson) (em : Str → Option Str)
        (raw : Str),
      ResponseParser.extractJsonString raw = none →
        (ResponseParser.parseAIResponse jp em raw).textForHistory = raw ∧
        (raw.length ≤ 400 →
          (ResponseParser.parseAIResponse jp em raw).textForSpeech = raw) ∧
        (400 < raw.length →
          (ResponseParser.parseAIResponse jp em raw).textForSpeech =
            ResponseParser.longTextSpeech ∧
          (ResponseParser.parseAIResponse jp em raw).textForSpeech ≠ raw)) ∧
    (∀ (jp : Str → Option ResponseParser.ParsedJson) (em : Str → Option Str)
        (raw js : Str) (pj : ResponseParser.ParsedJson) (r : Str),
      ResponseParser.extractJsonString raw = some js →
        jp js = some pj → pj.response = some r → r ≠ [] →
        (ResponseParser.parseAIResponse jp em raw).textForHistory = r ∧
        (ResponseParser.parseAIResponse jp em raw).textForSpeech =
          (if ResponseParser.jsOr pj.type
                (ResponseParser.jsOr pj.responseType (("normal").data)) =
              ("normal").data ∧ 400 < r.length
            then ResponseParser.longTextSpeech else r)) ∧
    (∀ (jp : Str → Option ResponseParser.ParsedJson) (em : Str → Option Str)
        (raw js : Str),
      ResponseParser.extractJsonString raw = some js →
        jp js = none → em raw = none →
        (ResponseParser.parseAIResponse jp em raw).textForHistory = raw ∧
        (raw.length ≤ 400 →
          (ResponseParser.parseAIResponse jp em raw).textForSpeech = raw)) ∧
    (∀ (jp : Str → Option ResponseParser.ParsedJson) (em : Str → Option Str)
        (raw js e : Str),
      ResponseParser.extractJsonString raw = some js →
        jp js = none → em raw = some e → e ≠ [] →
        (ResponseParser.parseAIResponse jp em raw).textForHistory = e) := by
  refine ⟨?_, ?_, ?_, ?_⟩
  · intro jp em raw hex
    refine ⟨?_, ?_, ?_⟩
    case _ =>
      simp only [ResponseParser.parseAIResponse, hex]
      split <;> rfl
    · intro hlen
      have hnl : ¬(400 < raw.length) := not_lt.mpr hlen
      simp [ResponseParser.parseAIResponse, hex, hnl]
    · intro hlen
      have hlsp : ResponseParser.longTextSpeech.length = 88 := by decide
      have hsp : (ResponseParser.parseAIResponse jp em raw).textForSpeech =
          ResponseParser.longTextSpeech := by
        simp [ResponseParser.parseAIResponse, hex, hlen]
      refine ⟨hsp, ?_⟩
      rw [hsp]
      intro heq
      have hlen2 := congrArg List.length heq
      rw [hlsp] at hlen2
      omega
  · intro jp em raw js pj r hex hjp hr hrne
    have hjsor : ResponseParser.jsOr pj.response
        (ResponseParser.jsOr pj.message ResponseParser.interactiveDefault) = r := by
      rw [hr, ResponseParser.jsOr, if_neg hrne]
    constructor
    · simp only [ResponseParser.parseAIResponse, hex, hjp, hjsor]
      split <;> rfl
    · by_cases hc : ResponseParser.jsOr pj.type
          (ResponseParser.jsOr pj.responseType (("normal").data)) =
          ("normal").data ∧ 400 < r.length
      · simp [ResponseParser.parseAIResponse, hex, hjp, hjsor, hc]
      · simp [ResponseParser.parseAIResponse, hex, hjp, hjsor, hc]
  · intro jp em raw js hex hjp hem
    refine ⟨?_, ?_⟩
    case _ =>
      simp only [ResponseParser.parseAIResponse, hex, hjp, hem]
      have hj : ResponseParser.jsOr none raw = raw := rfl
      rw [hj]
      split <;> rfl
    intro hlen
    have hnl : ¬(400 < raw.length) := not_lt.mpr hlen
    simp [ResponseParser.parseAIResponse, hex, hjp, hem, ResponseParser.jsOr, hnl]
  · intro jp em raw js e hex hjp hem hene
    have hj : ResponseParser.jsOr (em raw) raw = e := by
      rw [hem, ResponseParser.jsOr, if_neg hene]
    simp only [ResponseParser.parseAIResponse, hex, hjp, hj]
    split <;> rfl

/-- Witness for C7: a concrete brace-delimited object whose parse yields the
response field `Hi.` is recorded as `Hi.`, not as the raw message; and a
concrete found-but-unparseable brace span with no extractable text passes the
raw message through to the player. -/
theorem C7_witness :
    (ResponseParser.parseAIResponse
        (fun _ => some ⟨some (("Hi.").data), none, none, none, none, none⟩)
        (fun _ => none)
        (ResponseParser.lbrace :: (("x").data ++ [ResponseParser.rbrace]))).textForHistory =
      ("Hi.").data ∧
    (ResponseParser.parseAIResponse (fun _ => none) (fun _ => none)
        [ResponseParser.lbrace, ResponseParser.rbrace]).textForSpeech =
      [ResponseParser.lbrace, ResponseParser.rbrace] :=
  ⟨(C7_parse_rewrites.2.1
      (fun _ => some ⟨some (("Hi.").data), none, none, none, none, none⟩)
      (fun _ => none)
      (ResponseParser.lbrace :: (("x").data ++ [ResponseParser.rbrace]))
      (ResponseParser.lbrace :: (("x").data ++ [ResponseParser.rbrace]))
      ⟨some (("Hi.").data), none, none, none, none, none⟩
      (("Hi.").data)
      (by decide) rfl rfl (by decide)).1,
   (C7_parse_rewrites.2.2.1 (fun _ => none) (fun _ => none)
      [ResponseParser.lbrace, ResponseParser.rbrace]
      [ResponseParser.lbrace, ResponseParser.rbrace]
      (by decide) rfl rfl).2 (by decide)⟩

end Aestim

